import Mathlib

/-!
Verification of the svelte-specma reactive validation engine.

This file gives a shallow embedding, in Lean, of the parts of the library
that the checked properties are about:

* a small model of JavaScript values (`JsVal`) with JS truthiness, deep
  equality (`fast-deep-equal`) and svelte's `safe_not_equal`;
* the validation-result data model and the predicate validator node's
  evaluation pipeline (`src/predSpecable.js`: `reqSpec`, `ownSpec`,
  `shouldValidate`, `interpretState`, the async-promise supersession
  mechanism, `submit`);
* the collection validator node (`src/collSpecable.js`: `setValue`,
  `combineChildren`, the status fold, `detailsToErrors` / `liftError`);
* the equality-gated container (`wriableByValue`).

Every definition is translated from the repository source; the few places
where the deciding code lives outside the repository snapshot (the specma
adapter functions `and` / `validatePred` / `getMessage`, and the
`ALWAYS_VALID` constant from the missing `constants.js`) are modelled from
the documented contract and marked `Modelled from the spec:` in their doc
comment.
-/

set_option autoImplicit false

namespace SvelteSpecma

/-! ## JavaScript value model -/

/-- A small model of JavaScript values as they flow through the library:
the primitives the code branches on (`undefined`, `null`, strings,
numbers, booleans) and heap objects.  An object carries a reference
identity `ref` (two distinct allocations get distinct `ref`s) and a
payload `data` standing for its deep contents. -/
inductive JsVal where
  | undefined
  | null
  | str (s : String)
  | num (n : Int)
  | bool (b : Bool)
  | obj (ref : Nat) (data : Nat)
  deriving DecidableEq, Repr

namespace JsVal

/-- JS truthiness of a value (`!!x`). -/
def truthy : JsVal → Bool
  | .undefined => false
  | .null => false
  | .str s => s ≠ ""
  | .num n => n ≠ 0
  | .bool b => b
  | .obj _ _ => true

/-- Is the value a heap object (`typeof x === "object" && x !== null`)? -/
def isObj : JsVal → Bool
  | .obj _ _ => true
  | _ => false

/-- Deep structural equality as computed by `fast-deep-equal`: objects are
compared by contents (`data`), ignoring reference identity; primitives by
value. -/
def deepEqual : JsVal → JsVal → Bool
  | .obj _ d₁, .obj _ d₂ => d₁ == d₂
  | a, b => a == b

/-- svelte's `safe_not_equal(a, b)`:
`a != a ? b == b : a !== b || (a && typeof a === 'object') || typeof a === 'function'`.
For our value model (no `NaN`, no functions) this is: the values are not
reference-identical, or `a` is an object (objects always count as
changed). -/
def safeNotEqual (a b : JsVal) : Bool :=
  a ≠ b || a.isObj

@[simp] theorem deepEqual_refl (a : JsVal) : deepEqual a a = true := by
  cases a <;> simp [deepEqual]

end JsVal

/-- Predicate `isMissing` from `src/predSpecable.js` line 9:
`(x) => [undefined, null, ""].includes(x)`. -/
def isMissing (x : JsVal) : Bool :=
  x == .undefined || x == .null || x == .str ""

/-! ## Validation results (`ValidationResult`, §3 of the spec)

A terminal result is `valid` (JS `valid: true`) or `invalid` with a
reason; a full result is either synchronously terminal (`now`) or pending
(`pending`), in which case — thanks to `enhanceResult` — its promise
always resolves to a terminal result, which we carry directly. -/

/-- A terminal validation result: `valid: true`, or `valid: false` with a
reason. -/
inductive TermRes where
  | valid
  | invalid (reason : JsVal)
  deriving DecidableEq, Repr

/-- The boolean `valid` field of a terminal result. -/
def TermRes.validB : TermRes → Bool
  | .valid => true
  | .invalid _ => false

/-- A validation result as produced by `validatePred` and consumed by the
node: either an immediately terminal result, or a pending one
(`valid: null`) whose (`enhanceResult`-wrapped) promise resolves to the
given terminal result. -/
inductive VRes where
  | now (t : TermRes)
  | pending (final : TermRes)
  deriving DecidableEq, Repr

namespace VRes

/-- The `valid` field of a result as the node reads it: `true`, `false`,
or `null` (modelled as `none`) while pending. -/
def validField : VRes → Option Bool
  | .now t => some t.validB
  | .pending _ => none

/-- The `reason` field of a result (`undefined` when there is none). -/
def reasonField : VRes → JsVal
  | .now (.invalid r) => r
  | _ => .undefined

/-- The terminal result the result's promise resolves to (for a
synchronous result, `enhanceResult` wraps it in `Promise.resolve`). -/
def resolved : VRes → TermRes
  | .now t => t
  | .pending t => t

end VRes

/-- Modelled from the spec: the `ALWAYS_VALID` constant from the missing
`src/constants.js` — per §3/§4.4 the short-circuit target is "the valid
terminal result". -/
def ALWAYS_VALID : VRes := .now .valid

/-! ## Predicate validator node (`src/predSpecable.js`) -/

/-- A predicate, post-`validatePred`: a function from the value to a
three-state validation result.  (`validatePred(pred, value, getFrom)`
returns the `ValidationResult` of applying the predicate; we model the
composite directly.  Cross-field context does not matter for the claims
below, so the `getFrom` argument is omitted.) -/
def Pred : Type := JsVal → VRes

/-- Predicate `reqSpec` from `src/predSpecable.js` line 12:
`(x) => !isMissing(x) || specma.getMessage("isRequired")` — a predicate
returning `true` for a present value and the configured "required" reason
otherwise.  `reqMsg` stands for `specma.getMessage("isRequired")`. -/
def reqSpec (reqMsg : JsVal) : Pred := fun x =>
  if isMissing x then .now (.invalid reqMsg) else .now .valid

/-- Modelled from the spec: `specma.and` (§6) — a short-circuiting
conjunction of predicates: the first predicate's failure pre-empts the
second, which is only consulted when the first succeeds.  (The first
argument is always the synchronous `reqSpec` in this library, so the
pending-first-result case is never exercised.) -/
def andPred (p q : Pred) : Pred := fun v =>
  match p v with
  | .now .valid => q v
  | r => r

/-- Like `andPred`, but additionally counts how many times the second
predicate is invoked, to make "the user predicate is never invoked"
directly expressible. -/
def andPredCalls (p q : Pred) (v : JsVal) : VRes × Nat :=
  match p v with
  | .now .valid => (q v, 1)
  | r => (r, 0)

/-- Definition `ownSpec` from `src/predSpecable.js` line 25:
`isRequired ? and(reqSpec, pred) : pred`. -/
def ownSpec (reqMsg : JsVal) (isRequired : Bool) (pred : Pred) : Pred :=
  if isRequired then andPred (reqSpec reqMsg) pred else pred

/-- Variant of `ownSpec` with an invocation count for the user predicate: the result
of the effective predicate together with the number of times the
user-supplied predicate ran. -/
def ownSpecCalls (reqMsg : JsVal) (isRequired : Bool) (pred : Pred) (v : JsVal) :
    VRes × Nat :=
  if isRequired then andPredCalls (reqSpec reqMsg) pred v else (pred v, 1)

/-- Definition `shouldValidate` from `src/predSpecable.js` line 78:
`$active && ($value !== undefined || required)` — note it tests the raw
`required` option (truthiness), not the derived `isRequired`. -/
def shouldValidate (active : Bool) (value : JsVal) (required : Bool) : Bool :=
  active && (value ≠ .undefined || required)

/-- The result computed by one run of the node's derived-store callback
(`src/predSpecable.js` lines 78-81):
`shouldValidate ? validatePred(ownSpec, $value, getFrom) : ALWAYS_VALID`. -/
def nodeResult (reqMsg : JsVal) (required : Bool) (pred : Pred)
    (active : Bool) (value : JsVal) : VRes :=
  if shouldValidate active value required then
    ownSpec reqMsg required pred value
  else ALWAYS_VALID

/-- Variant of `nodeResult` instrumented with the number of user-predicate
invocations performed during the evaluation. -/
def nodeResultCalls (reqMsg : JsVal) (required : Bool) (pred : Pred)
    (active : Bool) (value : JsVal) : VRes × Nat :=
  if shouldValidate active value required then
    ownSpecCalls reqMsg required pred value
  else (ALWAYS_VALID, 0)

/-- The boolean validity `activate(true)` resolves to
(`src/predSpecable.js` lines 107-112): it awaits the current result's
promise and returns its `valid` field. -/
def activateResolvesTo (reqMsg : JsVal) (required : Bool) (pred : Pred)
    (value : JsVal) : Bool :=
  (nodeResult reqMsg required pred true value).resolved.validB

/-- The state object published by a predicate node
(`interpretState`, `src/predSpecable.js` lines 158-178).  The `promise`
field is represented by the terminal result it resolves to. -/
structure PredState where
  active : Bool
  changed : Bool
  error : JsVal
  id : JsVal
  initialValue : JsVal
  promiseResolvesTo : TermRes
  valid : Bool
  validating : Bool
  value : JsVal
  deriving DecidableEq, Repr

/-- Definition `interpretState` from `src/predSpecable.js` lines 158-178.
`changePred` is the pluggable change predicate (default
`(a, b) => !equals(a, b)`); `result` is the current validation result.
`error` is `result.valid === false && result.reason` — the JS `&&`
returns `false` when the guard fails, modelled as the falsy `.bool false`.
`value` is `changed ? value : initialValue`. -/
def interpretState (changePred : JsVal → JsVal → Bool) (active : Bool)
    (id initialValue : JsVal) (result : VRes) (value : JsVal) : PredState :=
  let changed := changePred value initialValue
  { active := active
    changed := changed
    error := if result.validField = some false then result.reasonField
             else .bool false
    id := id
    initialValue := initialValue
    promiseResolvesTo := result.resolved
    valid := result.validField = some true
    validating := result.validField = none
    value := if changed then value else initialValue }

/-- C10: In every state published by a predicate validator node, the
`error` field is truthy only if `valid` is `false` and `validating` is
`false`: a state with `valid` true or a still-pending validation never
carries a truthy error, since `error` is derived as the failure reason
exactly when the result's `valid` is `false`. -/
theorem pred_state_error_truthy_implies_invalid_settled
    (changePred : JsVal → JsVal → Bool) (active : Bool)
    (id initialValue : JsVal) (result : VRes) (value : JsVal)
    (h : (interpretState changePred active id initialValue result value).error.truthy = true) :
    (interpretState changePred active id initialValue result value).valid = false ∧
    (interpretState changePred active id initialValue result value).validating = false := by
  rcases result with t | t
  · rcases t with _ | r
    · simp [interpretState, VRes.validField, TermRes.validB, JsVal.truthy] at h
    · refine ⟨?_, ?_⟩ <;>
        simp [interpretState, VRes.validField, TermRes.validB]
  · simp [interpretState, VRes.validField, VRes.reasonField, JsVal.truthy] at h

/-- Witness for C10 at a concrete input: a result that failed with reason
`"bad"` publishes a truthy error, and the theorem yields
`valid = false ∧ validating = false` there. -/
theorem pred_state_error_truthy_implies_invalid_settled_witness :
    ((interpretState (fun a b => a ≠ b) true .undefined .undefined
        (.now (.invalid (.str "bad"))) (.num 3)).error.truthy = true) ∧
    ((interpretState (fun a b => a ≠ b) true .undefined .undefined
        (.now (.invalid (.str "bad"))) (.num 3)).valid = false ∧
     (interpretState (fun a b => a ≠ b) true .undefined .undefined
        (.now (.invalid (.str "bad"))) (.num 3)).validating = false) :=
  ⟨by decide,
   pred_state_error_truthy_implies_invalid_settled
     (fun a b => a ≠ b) true .undefined .undefined
     (.now (.invalid (.str "bad"))) (.num 3) (by decide)⟩

/-- C6: For every required predicate validator node whose value is
`undefined`, `null`, or the empty string, `activate(true)` resolves to
`false` with the configured "required" reason as the error, and the
user-supplied predicate is never invoked: the built-in required check
short-circuits before it. -/
theorem required_missing_value_fails_without_user_pred
    (reqMsg : JsVal) (pred : Pred) (v : JsVal) (h : isMissing v = true) :
    nodeResultCalls reqMsg true pred true v = (.now (.invalid reqMsg), 0) ∧
    activateResolvesTo reqMsg true pred v = false ∧
    (interpretState (fun a b => a ≠ b) true .undefined .undefined
        (nodeResult reqMsg true pred true v) v).error = reqMsg := by
  have hsv : shouldValidate true v true = true := by
    simp [shouldValidate]
  refine ⟨?_, ?_, ?_⟩
  · simp [nodeResultCalls, hsv, ownSpecCalls, andPredCalls, reqSpec, h]
  · simp [activateResolvesTo, nodeResult, hsv, ownSpec, andPred, reqSpec, h,
      VRes.resolved, TermRes.validB]
  · simp [interpretState, nodeResult, hsv, ownSpec, andPred, reqSpec, h,
      VRes.validField, VRes.reasonField, TermRes.validB]

/-- Witness for C6 at a concrete input: the empty string is missing, and
for a node with required reason `"is required"` and a user predicate that
would reject everything, activation resolves `false` with the required
reason and zero user-predicate invocations. -/
theorem required_missing_value_fails_without_user_pred_witness :
    isMissing (.str "") = true ∧
    (nodeResultCalls (.str "is required") true
        (fun _ => .now (.invalid (.str "other"))) true (.str "") =
      (.now (.invalid (.str "is required")), 0) ∧
    activateResolvesTo (.str "is required") true
        (fun _ => .now (.invalid (.str "other"))) (.str "") = false ∧
    (interpretState (fun a b => a ≠ b) true .undefined .undefined
        (nodeResult (.str "is required") true
          (fun _ => .now (.invalid (.str "other"))) true (.str "")) (.str "")).error =
      .str "is required") :=
  ⟨by decide,
   required_missing_value_fails_without_user_pred (.str "is required")
     (fun _ => .now (.invalid (.str "other"))) (.str "") (by decide)⟩

/-- C7: For every non-required predicate validator node whose value is
`undefined`, `activate(true)` resolves to `true` and the user-supplied
predicate is never invoked: `shouldValidate` is false, so the node
short-circuits to the always-valid terminal result. -/
theorem optional_undefined_value_valid_without_user_pred
    (reqMsg : JsVal) (pred : Pred) :
    nodeResultCalls reqMsg false pred true .undefined = (ALWAYS_VALID, 0) ∧
    activateResolvesTo reqMsg false pred .undefined = true := by
  constructor
  · simp [nodeResultCalls, shouldValidate]
  · simp [activateResolvesTo, nodeResult, shouldValidate, ALWAYS_VALID,
      VRes.resolved, TermRes.validB]

/-! ## Collection status combination (`src/collSpecable.js` lines 328-336)

The status fold works on the four combined fields of constituent states.
`active` is `true`/`false`/`null` (tri-state "mixed"), modelled as
`Option Bool` with `none` for `null`; likewise `valid`.  `changed` and
`validating` are booleans (`changed` is boolean under the default change
predicate `(a, b) => !equals(a, b)`). -/

/-- The four fields `combineChildren` reads and produces from each
constituent state. -/
structure Status where
  active : Option Bool
  changed : Bool
  valid : Option Bool
  validating : Bool
  deriving DecidableEq, Repr, Fintype

/-- JS `a && b` on the tri-state `valid` field: returns `b` when `a` is
`true` (the only truthy value of the field), else returns `a` itself
(`false` or `null`). -/
def jsAnd (a b : Option Bool) : Option Bool :=
  if a = some true then b else a

/-- JS `a === b ? b : null` on the tri-state `active` field. -/
def activeComb (a b : Option Bool) : Option Bool :=
  if a = b then b else none

/-- Definition `combineChildren` from `src/collSpecable.js` lines 328-336. -/
def combineChildren (a b : Status) : Status :=
  let validating := a.validating || b.validating
  { active := activeComb a.active b.active
    changed := a.changed || b.changed
    valid := if validating then none else jsAnd a.valid b.valid
    validating := validating }

/-- The status fold from `src/collSpecable.js` line 129:
`[$ownSpecable, ...$children].reduce(combineChildren)` — a left fold from
the own-predicate state over the child states. -/
def combineStatuses (own : Status) (children : List Status) : Status :=
  children.foldl combineChildren own

/-- A published constituent state is well-formed: its `valid` field can
be `null` only while it is validating.  Leaf (predicate-node) states have
boolean `valid` outright, and combined states have `valid = null` exactly
when validating, so every state fed into the fold satisfies this. -/
def WellFormedStatus (s : Status) : Prop :=
  s.validating = false → s.valid ≠ none

instance (s : Status) : Decidable (WellFormedStatus s) :=
  inferInstanceAs (Decidable (s.validating = false → s.valid ≠ none))

/-- Leaf states produced by `interpretState` are well-formed: their
`valid` field is the boolean `!!result.valid`, never `null`. -/
theorem interpretState_wellFormed (changePred : JsVal → JsVal → Bool)
    (active : Bool) (id initialValue : JsVal) (result : VRes) (value : JsVal) :
    WellFormedStatus
      { active := some (interpretState changePred active id initialValue result value).active
        changed := (interpretState changePred active id initialValue result value).changed
        valid := some (interpretState changePred active id initialValue result value).valid
        validating := (interpretState changePred active id initialValue result value).validating } := by
  intro _ h
  simp at h

/-- Closure: `combineChildren` preserves well-formedness, so every intermediate
state of the fold is well-formed. -/
theorem combineChildren_wellFormed (a b : Status)
    (ha : WellFormedStatus a) (hb : WellFormedStatus b) :
    WellFormedStatus (combineChildren a b) := by
  intro hv
  simp only [combineChildren] at hv ⊢
  rcases Bool.or_eq_false_iff.mp hv with ⟨ha', hb'⟩
  obtain ⟨x, hx⟩ := Option.ne_none_iff_exists'.mp (ha ha')
  obtain ⟨y, hy⟩ := Option.ne_none_iff_exists'.mp (hb hb')
  simp only [ha', hb', Bool.or_self, Bool.false_eq_true, if_false, hx, hy]
  cases x <;> simp [jsAnd]

theorem activeComb_assoc (x y z : Option Bool) :
    activeComb (activeComb x y) z = activeComb x (activeComb y z) := by
  revert x y z
  decide

theorem activeComb_comm (x y : Option Bool) :
    activeComb x y = activeComb y x := by
  revert x y
  decide

theorem jsAnd_assoc (x y z : Option Bool) :
    jsAnd (jsAnd x y) z = jsAnd x (jsAnd y z) := by
  revert x y z
  decide

/-- Associativity: `combineChildren` is associative without side conditions. -/
theorem combineChildren_assoc (a b c : Status) :
    combineChildren (combineChildren a b) c =
      combineChildren a (combineChildren b c) := by
  rcases a with ⟨aa, ac, av, avg⟩
  rcases b with ⟨ba, bc, bv, bvg⟩
  rcases c with ⟨ca, cc, cv, cvg⟩
  cases avg <;> cases bvg <;> cases cvg <;>
    simp [combineChildren, activeComb_assoc, jsAnd_assoc, Bool.or_assoc,
      Status.mk.injEq]

/-- Commutativity: `combineChildren` is commutative on well-formed states. -/
theorem combineChildren_comm (a b : Status)
    (ha : WellFormedStatus a) (hb : WellFormedStatus b) :
    combineChildren a b = combineChildren b a := by
  rcases a with ⟨aa, ac, av, avg⟩
  rcases b with ⟨ba, bc, bv, bvg⟩
  cases avg <;> cases bvg <;>
    simp_all [WellFormedStatus, combineChildren, activeComb_comm,
      Status.mk.injEq, Bool.or_comm]
  obtain ⟨x, hx⟩ := Option.ne_none_iff_exists'.mp ha
  obtain ⟨y, hy⟩ := Option.ne_none_iff_exists'.mp hb
  subst hx hy
  cases x <;> cases y <;> simp [jsAnd]

/-- C8: The status-combination function `combineChildren` over
constituent states (the `active`, `changed`, `valid`, `validating`
fields) is associative and commutative, so the left-fold over the
constituents yields the same combined status in any order.  Constituent
states are well-formed (`valid` is `null` only while validating — true of
every leaf state by `interpretState_wellFormed` and preserved through the
fold by `combineChildren_wellFormed`); associativity needs no such
condition, commutativity of the `valid` field does. -/
theorem combineChildren_assoc_and_comm (a b c : Status)
    (ha : WellFormedStatus a) (hb : WellFormedStatus b)
    (_hc : WellFormedStatus c) :
    combineChildren a (combineChildren b c) =
      combineChildren (combineChildren a b) c ∧
    combineChildren a b = combineChildren b a :=
  ⟨(combineChildren_assoc a b c).symm, combineChildren_comm a b ha hb⟩

/-- Witness for C8 at concrete inputs: three well-formed constituent
states on which the associativity and commutativity equations hold. -/
theorem combineChildren_assoc_and_comm_witness :
    WellFormedStatus ⟨some true, false, some true, false⟩ ∧
    WellFormedStatus ⟨some false, true, some false, false⟩ ∧
    WellFormedStatus ⟨none, false, none, true⟩ ∧
    (combineChildren ⟨some true, false, some true, false⟩
        (combineChildren ⟨some false, true, some false, false⟩
          ⟨none, false, none, true⟩) =
      combineChildren
        (combineChildren ⟨some true, false, some true, false⟩
          ⟨some false, true, some false, false⟩)
        ⟨none, false, none, true⟩ ∧
    combineChildren ⟨some true, false, some true, false⟩
        ⟨some false, true, some false, false⟩ =
      combineChildren ⟨some false, true, some false, false⟩
        ⟨some true, false, some true, false⟩) :=
  ⟨by decide, by decide, by decide,
   combineChildren_assoc_and_comm _ _ _ (by decide) (by decide) (by decide)⟩

theorem combineStatuses_validating (own : Status) (cs : List Status) :
    (combineStatuses own cs).validating =
      (own.validating || cs.any (·.validating)) := by
  induction cs generalizing own with
  | nil => simp [combineStatuses]
  | cons c rest ih =>
    have h : combineStatuses own (c :: rest) =
        combineStatuses (combineChildren own c) rest := rfl
    rw [h, ih]
    simp [combineChildren, Bool.or_assoc]

@[simp] theorem combineChildren_validating (a b : Status) :
    (combineChildren a b).validating = (a.validating || b.validating) := rfl

@[simp] theorem combineChildren_valid (a b : Status) :
    (combineChildren a b).valid =
      if a.validating || b.validating then none
      else jsAnd a.valid b.valid := rfl

/-- A boolean known to be `false` is not `true`. -/
theorem bool_cond_neg {b : Bool} (h : b = false) : ¬(b = true) := by
  intro h'
  rw [h] at h'
  exact Bool.false_ne_true h'

/-- Characterization of the folded `valid` field, for an accumulator
whose `valid` is `null` exactly when it is validating (true of every
state produced by at least one application of `combineChildren` on
well-formed inputs). -/
theorem combineStatuses_valid_aux (cs : List Status) (acc : Status)
    (hacc : acc.valid = none ↔ acc.validating = true)
    (hcs : ∀ c ∈ cs, WellFormedStatus c) :
    (combineStatuses acc cs).valid =
      if acc.validating || cs.any (·.validating) then none
      else some ((acc.valid == some true) &&
        cs.all (fun c => c.valid == some true)) := by
  induction cs generalizing acc with
  | nil =>
    simp only [combineStatuses, List.foldl_nil, List.any_nil, Bool.or_false,
      List.all_nil, Bool.and_true]
    by_cases h : acc.validating = true
    · simp [h, hacc.mpr h]
    · have h' : acc.validating = false := by simpa using h
      have hne : acc.valid ≠ none := fun hn => by simp [hacc.mp hn] at h'
      obtain ⟨x, hx⟩ := Option.ne_none_iff_exists'.mp hne
      cases x <;> simp [h', hx]
  | cons c rest ih =>
    have hstep : combineStatuses acc (c :: rest) =
        combineStatuses (combineChildren acc c) rest := rfl
    have hcWf : WellFormedStatus c := hcs c (List.mem_cons_self c rest)
    have hacc' : (combineChildren acc c).valid = none ↔
        (combineChildren acc c).validating = true := by
      simp only [combineChildren_valid, combineChildren_validating]
      by_cases hv : (acc.validating || c.validating) = true
      · simp [hv]
      · have hv' : (acc.validating || c.validating) = false := by simpa using hv
        rcases Bool.or_eq_false_iff.mp hv' with ⟨ha1, hc1⟩
        have hne : acc.valid ≠ none := fun hn => by simp [hacc.mp hn] at ha1
        obtain ⟨x, hx⟩ := Option.ne_none_iff_exists'.mp hne
        obtain ⟨y, hy⟩ := Option.ne_none_iff_exists'.mp (hcWf hc1)
        rw [hv', hx, hy]
        cases x <;> simp [jsAnd]
    rw [hstep, ih (combineChildren acc c) hacc'
      (fun s hs => hcs s (List.mem_cons_of_mem c hs))]
    simp only [List.any_cons, List.all_cons, combineChildren_validating,
      combineChildren_valid]
    by_cases hv : (acc.validating || (c.validating || rest.any (·.validating))) = true
    · have hl : ((acc.validating || c.validating) ||
          rest.any (·.validating)) = true := by
        rw [Bool.or_assoc]
        exact hv
      rw [if_pos hl, if_pos hv]
    · have h0 : (acc.validating ||
          (c.validating || rest.any (·.validating))) = false := by
        simpa using hv
      rcases Bool.or_eq_false_iff.mp h0 with ⟨ha1, h23⟩
      rcases Bool.or_eq_false_iff.mp h23 with ⟨hc1, hr1⟩
      have hcA : ((acc.validating || c.validating) ||
          rest.any (·.validating)) = false := by
        simp [ha1, hc1, hr1]
      have hcB : (acc.validating || c.validating) = false := by
        simp [ha1, hc1]
      have hne : acc.valid ≠ none := fun hn => by simp [hacc.mp hn] at ha1
      obtain ⟨x, hx⟩ := Option.ne_none_iff_exists'.mp hne
      obtain ⟨y, hy⟩ := Option.ne_none_iff_exists'.mp (hcWf hc1)
      rw [if_neg (bool_cond_neg hcA), if_neg (bool_cond_neg h0),
        if_neg (bool_cond_neg hcB), hx, hy]
      cases x <;> cases y <;> simp [jsAnd, Bool.and_assoc]

/-- Counterexample to C3 as stated: with an own-predicate state that is
valid and a single child that is still validating, the combined status
published for the constituents has `valid = null` (`none`) — a third
value distinct from `false` — contradicting "while any constituent is
validating the combined valid is false, not some third value". -/
theorem combined_valid_is_null_not_false_counterexample :
    (combineStatuses ⟨some true, false, some true, false⟩
        [⟨some true, false, some false, true⟩]).validating = true ∧
    (combineStatuses ⟨some true, false, some true, false⟩
        [⟨some true, false, some false, true⟩]).valid = none ∧
    (combineStatuses ⟨some true, false, some true, false⟩
        [⟨some true, false, some false, true⟩]).valid ≠ some false := by
  decide

/-- C3 amended: for an own-predicate state combined with a non-empty
list of child states (all well-formed), the combined `valid` is `some
true` only if every constituent's `valid` is true and no constituent is
validating; while any constituent is validating the combined `valid` is
`null` (`none`) — a distinct third, falsy value, not `false` — and when
none is validating it is the boolean conjunction of the constituents'
`valid` fields. -/
theorem combined_valid_characterization (own c : Status) (rest : List Status)
    (hown : WellFormedStatus own) (hc : WellFormedStatus c)
    (hrest : ∀ s ∈ rest, WellFormedStatus s) :
    (combineStatuses own (c :: rest)).validating =
      (own.validating || (c.validating || rest.any (·.validating))) ∧
    (combineStatuses own (c :: rest)).valid =
      (if own.validating || (c.validating || rest.any (·.validating)) then none
       else some ((own.valid == some true) && ((c.valid == some true) &&
         rest.all (fun s => s.valid == some true)))) := by
  constructor
  · rw [combineStatuses_validating]
    simp [Bool.or_assoc]
  · have hacc' : (combineChildren own c).valid = none ↔
        (combineChildren own c).validating = true := by
      simp only [combineChildren_valid, combineChildren_validating]
      by_cases hv : (own.validating || c.validating) = true
      · simp [hv]
      · have hv' : (own.validating || c.validating) = false := by simpa using hv
        rcases Bool.or_eq_false_iff.mp hv' with ⟨ha1, hc1⟩
        obtain ⟨x, hx⟩ := Option.ne_none_iff_exists'.mp (hown ha1)
        obtain ⟨y, hy⟩ := Option.ne_none_iff_exists'.mp (hc hc1)
        rw [hv', hx, hy]
        cases x <;> simp [jsAnd]
    have hstep : combineStatuses own (c :: rest) =
        combineStatuses (combineChildren own c) rest := rfl
    rw [hstep, combineStatuses_valid_aux rest (combineChildren own c) hacc' hrest]
    simp only [combineChildren_validating, combineChildren_valid]
    by_cases hv : (own.validating || (c.validating || rest.any (·.validating))) = true
    · have hl : ((own.validating || c.validating) ||
          rest.any (·.validating)) = true := by
        rw [Bool.or_assoc]
        exact hv
      rw [if_pos hl, if_pos hv]
    · have h0 : (own.validating ||
          (c.validating || rest.any (·.validating))) = false := by
        simpa using hv
      rcases Bool.or_eq_false_iff.mp h0 with ⟨ha1, h23⟩
      rcases Bool.or_eq_false_iff.mp h23 with ⟨hc1, hr1⟩
      have hcA : ((own.validating || c.validating) ||
          rest.any (·.validating)) = false := by
        simp [ha1, hc1, hr1]
      have hcB : (own.validating || c.validating) = false := by
        simp [ha1, hc1]
      obtain ⟨x, hx⟩ := Option.ne_none_iff_exists'.mp (hown ha1)
      obtain ⟨y, hy⟩ := Option.ne_none_iff_exists'.mp (hc hc1)
      rw [if_neg (bool_cond_neg hcA), if_neg (bool_cond_neg h0),
        if_neg (bool_cond_neg hcB), hx, hy]
      cases x <;> cases y <;> simp [jsAnd, Bool.and_assoc]

/-- Witness for the amended C3 at concrete inputs: a valid own state, a
valid child, and a second child that is validating give combined
`validating = true` and combined `valid = null`. -/
theorem combined_valid_characterization_witness :
    WellFormedStatus ⟨some true, false, some true, false⟩ ∧
    (∀ s ∈ [(⟨some true, false, some false, true⟩ : Status)],
      WellFormedStatus s) ∧
    ((combineStatuses ⟨some true, false, some true, false⟩
        [⟨some true, false, some true, false⟩,
         ⟨some true, false, some false, true⟩]).validating = true ∧
     (combineStatuses ⟨some true, false, some true, false⟩
        [⟨some true, false, some true, false⟩,
         ⟨some true, false, some false, true⟩]).valid = none) := by
  refine ⟨by decide, by decide, ?_⟩
  have h := combined_valid_characterization
    ⟨some true, false, some true, false⟩
    ⟨some true, false, some true, false⟩
    [⟨some true, false, some false, true⟩]
    (by decide) (by decide) (by decide)
  rw [h.1, h.2]
  decide

/-! ## Collection value distribution (`src/collSpecable.js` lines 189-224)

`setValue` pushes an incoming collection into the tracked key-to-child
mapping.  We model a key-preserving collection (JS `map`/`object` shape)
as an association list: the incoming `coll` maps keys to possibly
`undefined` values (`Option V`, `none` for `undefined`), and the tracked
children map keys to child stores carrying an `id` and a current value.
`isSpread` is the node's spread flag (`src/collSpecable.js` lines 37-42);
`idGen` is the child-id generator used by `createChildEntry`. -/

/-- A tracked child store, reduced to the parts `setValue` touches: its
stable `id` and its current value. -/
structure ChildStore (V : Type) where
  id : String
  value : Option V
  deriving DecidableEq, Repr

/-- Lookup `get(key, coll)` from `src/util.js`: `undefined` for a missing key or
an explicitly-`undefined` entry. -/
def collGet {K V : Type} [DecidableEq K]
    (coll : List (K × Option V)) (k : K) : Option V :=
  match coll.find? (fun e => e.1 = k) with
  | none => none
  | some e => e.2

/-- The per-child update in `setValue`
(`src/collSpecable.js` lines 197-201): in partial mode a child whose
incoming value is `undefined` is skipped, otherwise the incoming value is
pushed into the child (`store.set(newValue, partial)`). -/
def setChildValue {K V : Type} [DecidableEq K]
    (coll : List (K × Option V)) (isPartial : Bool)
    (kc : K × ChildStore V) : K × ChildStore V :=
  let newValue := collGet coll kc.1
  if isPartial && newValue.isNone then kc
  else (kc.1, ⟨kc.2.id, newValue⟩)

/-- Definition `setValue` from `src/collSpecable.js` lines 189-224, restricted to
its effect on the key-to-child mapping: update existing children, then —
for spread collections only — add children for incoming keys not yet
tracked (`addChildren`), then — in full (non-partial) mode only — remove
children whose key is absent from the incoming collection
(`removeChildrenById`). -/
def setValue {K V : Type} [DecidableEq K]
    (idGen : K → Option V → String) (isSpread : Bool)
    (children : List (K × ChildStore V))
    (coll : List (K × Option V)) (isPartial : Bool) :
    List (K × ChildStore V) :=
  let updated := children.map (setChildValue coll isPartial)
  if !isSpread then updated
  else
    let childrenKeys := children.map Prod.fst
    let missing := coll.filter (fun e => decide (e.1 ∉ childrenKeys))
    let withAdded := updated ++ missing.map (fun e => (e.1, ⟨idGen e.1 e.2, e.2⟩))
    if isPartial then withAdded
    else
      let collKeys := coll.map Prod.fst
      let unusedIds := children.filterMap (fun kc =>
        if kc.1 ∈ collKeys then none else some kc.2.id)
      withAdded.filter (fun kc => decide (kc.2.id ∉ unusedIds))

/-- Counterexample to C1 as stated: a spread collection with one tracked
child (key `0`) receiving a partial `set` whose collection carries the
untracked key `1` gains a second child — `set(coll, partial = true)`
does add children for spread collections. -/
theorem setValue_partial_adds_child_counterexample :
    (setValue (fun _ _ => "fresh") true
        [(0, ⟨"a", some 1⟩)]
        [(0, some 2), (1, some 3)] true).map Prod.fst = [0, 1] ∧
    ([((0 : Nat), (⟨"a", some 1⟩ : ChildStore Nat))].map Prod.fst = [0]) := by
  constructor
  · decide
  · decide

/-- C1 amended: `set(coll, partial = true)` never removes a child — every
tracked child survives with its key and id, its value updated exactly
when its key maps to a non-`undefined` value in `coll`; for a non-spread
(fixed-shape) collection the key list is unchanged, so no child is added
either; but for a spread collection, incoming keys that are not yet
tracked do get fresh children appended even in partial mode. -/
theorem setValue_partial_characterization {K V : Type} [DecidableEq K]
    (idGen : K → Option V → String) (isSpread : Bool)
    (children : List (K × ChildStore V)) (coll : List (K × Option V)) :
    ((setValue idGen isSpread children coll true).map Prod.fst =
      children.map Prod.fst ++
        (if isSpread then
          (coll.filter
            (fun e => decide (e.1 ∉ children.map Prod.fst))).map Prod.fst
         else [])) ∧
    (∀ k c, (k, c) ∈ children →
      ∃ c', (k, c') ∈ setValue idGen isSpread children coll true ∧
        c'.id = c.id ∧
        c'.value = (if (collGet coll k).isNone then c.value
                    else collGet coll k)) := by
  have hupd : ∀ kc : K × ChildStore V,
      setChildValue coll true kc =
        (kc.1, ⟨kc.2.id,
          if (collGet coll kc.1).isNone then kc.2.value
          else collGet coll kc.1⟩) := by
    intro kc
    simp only [setChildValue, Bool.true_and]
    cases h : (collGet coll kc.1).isNone with
    | true =>
      have h' : collGet coll kc.1 = none := Option.isNone_iff_eq_none.mp h
      simp [h, h']
    | false =>
      simp [h]
  have hkeys : (children.map (setChildValue coll true)).map Prod.fst =
      children.map Prod.fst := by
    rw [List.map_map]
    apply List.map_congr_left
    intro kc _
    rw [Function.comp_apply, hupd kc]
  constructor
  · cases hsp : isSpread with
    | false =>
      simp only [setValue, hsp, Bool.not_false, if_true, Bool.false_eq_true,
        if_false, List.append_nil]
      exact hkeys
    | true =>
      simp only [setValue, hsp, Bool.not_true, Bool.false_eq_true, if_false,
        if_true, List.map_append, hkeys, List.map_map]
      rfl
  · intro k c hmem
    refine ⟨⟨c.id,
      if (collGet coll k).isNone then c.value else collGet coll k⟩,
      ?_, rfl, rfl⟩
    have hmem' : (k, (⟨c.id,
        if (collGet coll k).isNone then c.value else collGet coll k⟩ :
          ChildStore V)) ∈ children.map (setChildValue coll true) := by
      have hm := List.mem_map_of_mem (setChildValue coll true) hmem
      rwa [hupd (k, c)] at hm
    cases hsp : isSpread with
    | false =>
      simpa only [setValue, hsp, Bool.not_false, if_true] using hmem'
    | true =>
      simp only [setValue, hsp, Bool.not_true, Bool.false_eq_true, if_false,
        if_true]
      exact List.mem_append_left _ hmem'

/-- Witness for the amended C1 at a concrete input: a spread collection
with one tracked child, patched partially with one tracked and one
untracked key. -/
theorem setValue_partial_characterization_witness :
    ((setValue (fun (_ : Nat) (_ : Option Nat) => "fresh") true
        [(0, ⟨"a", some 1⟩)]
        [(0, some 2), (1, some 3)] true).map Prod.fst = [0] ++ [1]) ∧
    (((0 : Nat), (⟨"a", some 1⟩ : ChildStore Nat)) ∈
        [((0 : Nat), (⟨"a", some 1⟩ : ChildStore Nat))] ∧
      ∃ c', ((0 : Nat), c') ∈ setValue (fun _ _ => "fresh") true
          [(0, ⟨"a", some 1⟩)] [(0, some 2), (1, some 3)] true ∧
        c'.id = "a" ∧ c'.value = some 2) := by
  have h := setValue_partial_characterization
    (fun (_ : Nat) (_ : Option Nat) => "fresh")
    true [(0, ⟨"a", some 1⟩)] [(0, some 2), (1, some 3)]
  refine ⟨?_, List.mem_singleton.mpr rfl, ?_⟩
  · rw [h.1]
    decide
  · have h2 := h.2 0 ⟨"a", some 1⟩ (List.mem_singleton.mpr rfl)
    obtain ⟨c', hc1, hc2, hc3⟩ := h2
    refine ⟨c', hc1, hc2, ?_⟩
    rw [hc3]
    decide

/-! ## Async promise supersession (`src/predSpecable.js` lines 59-104)

Each run of the node's derived-store callback (triggered by a `set`)
creates a fresh result promise and stores it in `currPromise`
(line 92); a resolving promise publishes only if it is still the current
one — `if (result.promise !== currPromise) return;` (line 99).  Since
`enhanceResult` allocates a new promise object on every run, promise
reference identity is modelled by a generation number: run number `g`
owns promise `g`.  Publications are the node's `set(interpretState(...))`
calls: an immediate pending-state publication on each run, and a settled
publication when a still-current promise resolves. -/

/-- One entry in the node's publication history: the immediate
`validating` state published by run `g`, or the settled state published
when run `g`'s promise resolved. -/
inductive Pub where
  | pendingState (g : Nat)
  | settledState (g : Nat) (r : TermRes)
  deriving DecidableEq, Repr

/-- The supersession state: the number of evaluation runs so far (the
next fresh generation), the generation owning `currPromise` (if any
async run is current), and the publication history. -/
structure RaceState where
  nextGen : Nat
  curr : Option Nat
  published : List Pub
  deriving DecidableEq, Repr

/-- Events driving the mechanism: a new evaluation run with an
asynchronous predicate result (as triggered by `set(a)` / `set(b)` on an
active node), or the resolution of run `g`'s promise.  `res g` is the
terminal result run `g`'s promise resolves to. -/
inductive RaceEvent where
  | recompute
  | resolve (g : Nat)
  deriving DecidableEq, Repr

/-- The initial state: no runs, no current promise, nothing published. -/
def raceInit : RaceState := ⟨0, none, []⟩

/-- One step of the mechanism, from `src/predSpecable.js` lines 66-104:
a recomputation assigns the fresh promise to `currPromise` and publishes
the intermediate validating state; a resolution publishes its settled
state only when its promise is reference-identical to `currPromise`, and
is dropped otherwise. -/
def raceStep (res : Nat → TermRes) (s : RaceState) : RaceEvent → RaceState
  | .recompute =>
    ⟨s.nextGen + 1, some s.nextGen, s.published ++ [.pendingState s.nextGen]⟩
  | .resolve g =>
    if s.curr = some g then
      { s with published := s.published ++ [.settledState g (res g)] }
    else s

/-- Run the mechanism over a sequence of events. -/
def raceRun (res : Nat → TermRes) (events : List RaceEvent) : RaceState :=
  events.foldl (raceStep res) raceInit

/-- A resolution of a promise that is no longer `currPromise` changes
nothing: it publishes no state. -/
theorem raceStep_stale_resolve_noop (res : Nat → TermRes) (s : RaceState)
    (g : Nat) (h : s.curr ≠ some g) :
    raceStep res s (.resolve g) = s := by
  simp [raceStep, h]

/-- C2: after `set(a)` then `set(b)` trigger two asynchronous evaluation
runs (generations 0 and 1) while active, with `b`'s promise resolving
first and `a`'s promise resolving later, the published history is exactly
the two intermediate validating states followed by the settled state of
`b`'s run: the node settles on `b`'s result, `a`'s superseded resolution
is never published, and in general a resolution whose promise is not the
most recently issued one (by reference identity) publishes nothing. -/
theorem race_second_set_wins (res : Nat → TermRes) :
    (raceRun res
      [.recompute, .recompute, .resolve 1, .resolve 0]).published =
      [.pendingState 0, .pendingState 1, .settledState 1 (res 1)] ∧
    (∀ r, Pub.settledState 0 r ∉
      (raceRun res
        [.recompute, .recompute, .resolve 1, .resolve 0]).published) ∧
    (∀ s : RaceState, ∀ g : Nat, s.curr ≠ some g →
      raceStep res s (.resolve g) = s) := by
  refine ⟨?_, ?_, raceStep_stale_resolve_noop res⟩
  · simp [raceRun, raceStep, raceInit, List.foldl]
  · intro r
    simp [raceRun, raceStep, raceInit, List.foldl]

/-- Witness for C2 at a concrete input: with run 0 resolving invalid and
run 1 resolving valid, the final published entry is run 1's settled
state, and a concrete stale resolution is a no-op. -/
theorem race_second_set_wins_witness :
    ((raceRun (fun g => if g = 0 then .invalid (.str "a-bad") else .valid)
        [.recompute, .recompute, .resolve 1, .resolve 0]).published =
      [.pendingState 0, .pendingState 1, .settledState 1 .valid]) ∧
    ((⟨2, some 1, []⟩ : RaceState).curr ≠ some 0 ∧
      raceStep (fun g => if g = 0 then .invalid (.str "a-bad") else .valid)
        ⟨2, some 1, []⟩ (.resolve 0) = ⟨2, some 1, []⟩) := by
  have h := race_second_set_wins
    (fun g => if g = 0 then .invalid (.str "a-bad") else .valid)
  refine ⟨?_, by decide, h.2.2 ⟨2, some 1, []⟩ 0 (by decide)⟩
  rw [h.1]
  decide

/-! ## Submit flow (`src/predSpecable.js` lines 114-123,
`src/collSpecable.js` lines 243-252)

Both `submit` implementations have the same straight-line shape with no
`try`/`finally`:

```
if (!onSubmit) return;
submitting.set(true);
const valid = await activate();
if (valid) { ... await onSubmit(currValue); }
submitting.set(false);
```

A rejecting `onSubmit` therefore aborts the function before the final
`submitting.set(false)`.  We model the run by its three inputs — whether
a handler is configured, the validity `activate()` resolves to, and
whether the handler throws/rejects — and return the final value of the
`submitting` flag together with whether an error propagated to the
caller of `submit()`. -/

/-- Control-flow transcription of `submit`: returns
`(final submitting flag, error propagated)`. -/
def submitRun (hasHandler valid handlerFails : Bool) : Bool × Bool := Id.run do
  let mut submitting := false
  if !hasHandler then return (submitting, false)
  submitting := true
  if valid then
    if handlerFails then
      return (submitting, true)
  submitting := false
  return (submitting, false)

/-- C4 (the code contradicts the claim and the README): when the
configured submit handler throws or rejects, the error propagates to the
caller but the `submitting` flag is left `true` — there is no
`try`/`finally`, so the trailing `submitting.set(false)` is skipped.  On
the non-throwing paths (handler succeeded, or validation resolved
invalid) the flag is reset to `false` as documented. -/
theorem submit_handler_throw_leaves_submitting_true :
    submitRun true true true = (true, true) ∧
    submitRun true true false = (false, false) ∧
    submitRun true false true = (false, false) ∧
    submitRun true false false = (false, false) := by
  decide

/-! ## Equality-gated container and the node value store

`wriableByValue` (the equality-gated container, `src/unnamed/part_004`
lines 6-17) keeps a `_value` gate and an inner svelte `writable`; its
`set` returns early — no update, no notification — when the incoming
value is deep-equal to `_value`.  The predicate node in the checked
revision, however, wires its value through a *plain* svelte `writable`
(`src/predSpecable.js` line 64), whose `set` notifies whenever svelte's
`safe_not_equal` holds — which is always the case for object values.
Each accepted write re-runs the node's derived callback, which publishes
a freshly allocated state object (always passing `safe_not_equal`), so
node-level subscriber notifications coincide with accepted writes. -/

/-- A plain svelte `writable`'s `set`: assigns and notifies iff
`safe_not_equal(current, new)`; returns the store value afterwards and
whether subscribers were notified. -/
def writableSet (curr newVal : JsVal) : JsVal × Bool :=
  if JsVal.safeNotEqual curr newVal then (newVal, true) else (curr, false)

/-- The state of a `wriableByValue` container: the `_value` gate and the
inner `writable`'s value. -/
structure WriableByValue where
  _value : JsVal
  inner : JsVal
  deriving DecidableEq, Repr

/-- Constructor `wriableByValue(initialValue)` from `src/unnamed/part_004`: both the
gate and the inner writable start at the initial value. -/
def wriableByValue (initialValue : JsVal) : WriableByValue :=
  ⟨initialValue, initialValue⟩

/-- Method `set` of `wriableByValue`: `if (equals(newValue, _value)) return;`
then `_value = newValue; store.set(_value);`.  Returns the new container
state and whether subscribers were notified. -/
def wriableByValueSet (s : WriableByValue) (v : JsVal) :
    WriableByValue × Bool :=
  if JsVal.deepEqual v s._value then (s, false)
  else
    match writableSet s.inner v with
    | (inner', notified) => (⟨v, inner'⟩, notified)

/-- Number of subscriber notifications produced by a sequence of `set`
calls on a `wriableByValue` container. -/
def wriableByValueNotifications (s : WriableByValue) :
    List JsVal → Nat
  | [] => 0
  | v :: rest =>
    match wriableByValueSet s v with
    | (s', n) => (if n then 1 else 0) + wriableByValueNotifications s' rest

/-- Number of node-level subscriber notifications produced by a sequence
of `node.set(v)` calls on the checked revision's predicate node, whose
value store is a plain `writable`. -/
def nodeValueNotifications (curr : JsVal) : List JsVal → Nat
  | [] => 0
  | v :: rest =>
    match writableSet curr v with
    | (c', n) => (if n then 1 else 0) + nodeValueNotifications c' rest

theorem wriableByValueSet_gated (s : WriableByValue) (v : JsVal)
    (h : JsVal.deepEqual v s._value = true) :
    wriableByValueSet s v = (s, false) := by
  simp [wriableByValueSet, h]

theorem wriableByValueSet_accept (s : WriableByValue) (v : JsVal)
    (hinv : s.inner = s._value)
    (h : JsVal.deepEqual v s._value = false) :
    wriableByValueSet s v = (⟨v, v⟩, true) := by
  by_cases he : s.inner = v
  · exfalso
    have hv : v = s._value := he ▸ hinv
    rw [← hv] at h
    simp at h
  · have hsne : JsVal.safeNotEqual s.inner v = true := by
      simp [JsVal.safeNotEqual, he]
    simp [wriableByValueSet, h, writableSet, hsne]

/-- Counterexample to C5 as stated: two deep-equal but distinct object
values pushed through the checked revision's predicate node (plain
`writable` value store) produce *two* subscriber notifications, not one —
svelte's `safe_not_equal` is always true for object values, so the
second `set` is not suppressed. -/
theorem node_set_deep_equal_two_notifications_counterexample :
    JsVal.deepEqual (.obj 1 5) (.obj 2 5) = true ∧
    nodeValueNotifications .undefined [.obj 1 5, .obj 2 5] = 2 := by
  decide

/-- C5 amended: the equality-gated container `wriableByValue` does
satisfy the claim — its `set` notifies iff the incoming value is not
deep-equal to the stored value, so setting `v` then a deep-equal `v'`
produces exactly one notification, the second `set` updating nothing.
But the predicate node's value store in the checked revision is a plain
svelte `writable`, so at node level the second `set` is suppressed only
when svelte's `safe_not_equal` rejects it (identical primitives), not
for deep-equal distinct objects. -/
theorem wriableByValue_equality_gating (init v v' : JsVal)
    (hvv : JsVal.deepEqual v' v = true)
    (hinit : JsVal.deepEqual v init = false) :
    wriableByValueNotifications (wriableByValue init) [v, v'] = 1 ∧
    (∀ (s : WriableByValue) (w : JsVal), s.inner = s._value →
      (wriableByValueSet s w).2 = !(JsVal.deepEqual w s._value)) := by
  constructor
  · have h1 : wriableByValueSet (wriableByValue init) v = (⟨v, v⟩, true) :=
      wriableByValueSet_accept _ _ rfl hinit
    have h2 : wriableByValueSet ⟨v, v⟩ v' = (⟨v, v⟩, false) :=
      wriableByValueSet_gated _ _ hvv
    simp [wriableByValueNotifications, h1, h2]
  · intro s w hinv
    by_cases h : JsVal.deepEqual w s._value = true
    · rw [wriableByValueSet_gated s w h, h]
      rfl
    · have h' : JsVal.deepEqual w s._value = false := by simpa using h
      rw [wriableByValueSet_accept s w hinv h', h']
      rfl

/-- Witness for the amended C5 at concrete inputs: from initial value
`0`, setting the object `{data 5, ref 1}` and then the deep-equal but
distinct object `{data 5, ref 2}` notifies exactly once. -/
theorem wriableByValue_equality_gating_witness :
    (JsVal.deepEqual (.obj 2 5) (.obj 1 5) = true ∧
     JsVal.deepEqual (.obj 1 5) (.num 0) = false) ∧
    wriableByValueNotifications (wriableByValue (.num 0))
      [.obj 1 5, .obj 2 5] = 1 :=
  ⟨⟨by decide, by decide⟩,
   (wriableByValue_equality_gating (.num 0) (.obj 1 5) (.obj 2 5)
     (by decide) (by decide)).1⟩

/-! ## Error aggregation (`src/collSpecable.js` lines 338-367)

`detailsToErrors` walks the `details` map of a collection status — the
own-predicate state under key `"_"` plus one entry per child, keyed by
child id — and flattens every truthy own-error in the subtree into a
record `{path, which, error, isColl}`.  We model the details map of a
node as its own error (`none` for a falsy error value) plus the ordered
forest of children, each child being a leaf (predicate node) or a
collection node with its own nested details. -/

/-- One aggregated error record: the id path from the root, its
dotted-string rendering (`which`), the error reason, and the `isColl`
flag (absent on leaf records in JS, modelled as `false`). -/
structure ErrEntry where
  path : List String
  which : String
  error : String
  isColl : Bool
  deriving DecidableEq, Repr

mutual

/-- A subtree of the details map: a predicate-node child carrying its id
and its (possibly falsy, `none`) own error, or a collection-node child
carrying its id, its collection-level own error, and its own children. -/
inductive NodeTree where
  | leaf (id : String) (error : Option String)
  | node (id : String) (ownError : Option String) (children : NodeForest)

/-- An ordered forest of detail-map children. -/
inductive NodeForest where
  | nil
  | cons (head : NodeTree) (tail : NodeForest)

end

/-- Definition `liftError` from `src/collSpecable.js` lines 338-346: prefix the
parent id (when defined) onto the path and re-render `which` as the
dotted path. -/
def liftError (parentId : Option String) (e : ErrEntry) : ErrEntry :=
  let newPath := match parentId with
    | none => e.path
    | some p => p :: e.path
  { e with path := newPath, which := String.intercalate "." newPath }

/-- The `"_"` entry's contribution (`src/collSpecable.js` lines 353-355):
a collection's own truthy error yields `{path: [], error, isColl: true}`
(its `which` is filled in by the enclosing `liftError` pass). -/
def ownErrorEntries (ownError : Option String) : List ErrEntry :=
  match ownError with
  | none => []
  | some e => [⟨[], "", e, true⟩]

mutual

/-- The contribution of one child entry of a details map
(`src/collSpecable.js` lines 350-361): a leaf with a truthy error yields
`summarizeStatusError` (`{path: [id], which: id, error}`, no `isColl`);
a collection child contributes its recursively flattened details, lifted
by its id. -/
def childErrors : NodeTree → List ErrEntry
  | .leaf id err =>
    match err with
    | none => []
    | some e => [⟨[id], id, e, false⟩]
  | .node id ownError children =>
    ((ownErrorEntries ownError) ++ childrenErrors children).map
      (liftError (some id))

/-- The concatenated contributions of a details map's child entries, in
order. -/
def childrenErrors : NodeForest → List ErrEntry
  | .nil => []
  | .cons t ts => childErrors t ++ childrenErrors ts

end

/-- Definition `detailsToErrors` from `src/collSpecable.js` lines 348-363, applied
to a collection node with own error `ownError`, children `children` and
id `parentId` (the root call passes the node's own `id`). -/
def detailsToErrors (ownError : Option String) (children : NodeForest)
    (parentId : Option String) : List ErrEntry :=
  ((ownErrorEntries ownError) ++ childrenErrors children).map
    (liftError parentId)

/-- Prefixing an error entry with a whole path and re-rendering `which`;
`liftError` is the single-segment (or empty) case. -/
def liftPrefix (pfx : List String) (e : ErrEntry) : ErrEntry :=
  ⟨pfx ++ e.path, String.intercalate "." (pfx ++ e.path), e.error, e.isColl⟩

/-- Specification-side record for a collection node's own truthy error,
sitting at the node's full path `pfx`. -/
def specOwnEntries (pfx : List String) (ownError : Option String) :
    List ErrEntry :=
  match ownError with
  | none => []
  | some e => [⟨pfx, String.intercalate "." pfx, e, true⟩]

mutual

/-- Specification-side error list for one child at path prefix `pfx`
(the ids from the root down to the enclosing collection): a leaf with a
truthy error contributes one record at `pfx ++ [id]`, and a collection
child contributes its own truthy error at `pfx ++ [id]` (flagged
`isColl`) followed by its children's records below `pfx ++ [id]`. -/
def specChildErrors (pfx : List String) : NodeTree → List ErrEntry
  | .leaf id err =>
    match err with
    | none => []
    | some e =>
      [⟨pfx ++ [id], String.intercalate "." (pfx ++ [id]), e, false⟩]
  | .node id ownError children =>
    specOwnEntries (pfx ++ [id]) ownError ++
      specChildrenErrors (pfx ++ [id]) children

/-- Specification-side error lists of a forest of children, in order. -/
def specChildrenErrors (pfx : List String) : NodeForest → List ErrEntry
  | .nil => []
  | .cons t ts => specChildErrors pfx t ++ specChildrenErrors pfx ts

end

/-- Specification-side error list of a whole collection node with id
`rootId`: its own truthy error at the root path, then every descendant's
truthy own error at its id chain from the root. -/
def specErrors (rootId : Option String) (ownError : Option String)
    (children : NodeForest) : List ErrEntry :=
  specOwnEntries rootId.toList ownError ++
    specChildrenErrors rootId.toList children

mutual

/-- The number of nodes with a truthy own error in one child subtree. -/
def countChildErrors : NodeTree → Nat
  | .leaf _ err => if err.isSome then 1 else 0
  | .node _ ownError children =>
    (if ownError.isSome then 1 else 0) + countChildrenErrors children

/-- The number of nodes with a truthy own error in a forest of child
subtrees. -/
def countChildrenErrors : NodeForest → Nat
  | .nil => 0
  | .cons t ts => countChildErrors t + countChildrenErrors ts

end

/-- The number of nodes with a truthy own error in a whole collection
node (own error plus all descendants). -/
def countErrors (ownError : Option String) (children : NodeForest) : Nat :=
  (if ownError.isSome then 1 else 0) + countChildrenErrors children

theorem liftPrefix_liftError_some (pfx : List String) (p : String)
    (e : ErrEntry) :
    liftPrefix pfx (liftError (some p) e) = liftPrefix (pfx ++ [p]) e := by
  simp [liftPrefix, liftError, List.append_assoc]

theorem liftError_eq_liftPrefix (pid : Option String) (e : ErrEntry) :
    liftError pid e = liftPrefix pid.toList e := by
  cases pid with
  | none =>
    cases e
    simp [liftError, liftPrefix]
  | some p =>
    cases e
    simp [liftError, liftPrefix]

mutual

theorem childErrors_spec (pfx : List String) :
    ∀ t : NodeTree,
      (childErrors t).map (liftPrefix pfx) = specChildErrors pfx t
  | .leaf id err => by
    cases err <;> simp [childErrors, specChildErrors, liftPrefix]
  | .node id ownError children => by
    rw [childErrors, specChildErrors, List.map_map]
    have hcomp : (liftPrefix pfx) ∘ (liftError (some id)) =
        liftPrefix (pfx ++ [id]) := by
      funext e
      exact liftPrefix_liftError_some pfx id e
    rw [hcomp, List.map_append, childrenErrors_spec (pfx ++ [id]) children]
    cases ownError <;> simp [ownErrorEntries, specOwnEntries, liftPrefix]

theorem childrenErrors_spec (pfx : List String) :
    ∀ ts : NodeForest,
      (childrenErrors ts).map (liftPrefix pfx) = specChildrenErrors pfx ts
  | .nil => by simp [childrenErrors, specChildrenErrors]
  | .cons t ts => by
    rw [childrenErrors, specChildrenErrors, List.map_append,
      childErrors_spec pfx t, childrenErrors_spec pfx ts]

end

mutual

theorem childErrors_length :
    ∀ t : NodeTree, (childErrors t).length = countChildErrors t
  | .leaf id err => by
    cases err <;> simp [childErrors, countChildErrors]
  | .node id ownError children => by
    rw [childErrors, countChildErrors, List.length_map, List.length_append,
      ← childrenErrors_length children]
    cases ownError <;> simp [ownErrorEntries]

theorem childrenErrors_length :
    ∀ ts : NodeForest,
      (childrenErrors ts).length = countChildrenErrors ts
  | .nil => by simp [childrenErrors, countChildrenErrors]
  | .cons t ts => by
    rw [childrenErrors, countChildrenErrors, List.length_append,
      childErrors_length t, childrenErrors_length ts]

end

/-- C9: the published `errors` list of a collection node is exactly the
specification-side list — one record per node in the subtree whose own
error is truthy, each carrying as `path` the chain of ids from the root
down to the erroring node, as `which` the dotted-string rendering of
that path, and `isColl = true` exactly for errors of collection-level
predicates — and its length therefore equals the number of nodes in the
subtree with a truthy own error. -/
theorem detailsToErrors_correct (rootId ownError : Option String)
    (children : NodeForest) :
    detailsToErrors ownError children rootId =
      specErrors rootId ownError children ∧
    (detailsToErrors ownError children rootId).length =
      countErrors ownError children := by
  have heq : detailsToErrors ownError children rootId =
      specErrors rootId ownError children := by
    rw [detailsToErrors]
    have hl : liftError rootId = liftPrefix rootId.toList := by
      funext e
      exact liftError_eq_liftPrefix rootId e
    rw [hl, List.map_append, childrenErrors_spec rootId.toList children]
    simp only [specErrors]
    cases ownError <;> simp [ownErrorEntries, specOwnEntries, liftPrefix]
  refine ⟨heq, ?_⟩
  rw [detailsToErrors, List.length_map, List.length_append,
    childrenErrors_length children]
  simp only [countErrors]
  cases ownError <;> simp [ownErrorEntries]

end SvelteSpecma
